import Mathlib

/-!
Verification of the SimpLL module-comparison core (diffkemp).

This file shallowly embeds the parts of the C++ sources needed to settle the
frozen claims:

* `Utils.cpp` : `hasSuffix`, `dropSuffix`, `inlineFunction`.
* `ModuleComparator.cpp` : `ModuleComparator::compareFunctions`, including the
  declaration fast path and the inlining feedback loop.
* `RemoveUnusedReturnValuesPass.cpp` : `RemoveUnusedReturnValuesPass::run`.

External collaborators (the `DifferentialFunctionComparator`, LLVM's
`InlineFunction`, `findCallInst`, the simplifier, and the abstraction
predicates) are not part of the compared sources; their observable outputs are
supplied as oracle inputs, and the cache updates performed by nested
comparisons that run inside a comparator invocation are supplied as an
explicit list of cache operations (`CacheOp`).
-/

namespace Diffkemp

/-! ## Names and numeric suffixes (`Utils.cpp`)

Function names are modelled as `List Char`.  `find_last_of('.')` and
`find_last_not_of("0123456789.")` from `std::string` are modelled by
`findLastIdx`, returning `none` for `npos`. -/

/-- Index of the last element of the list satisfying `p`, or `none`. -/
def findLastIdx (p : Char → Bool) : List Char → Option Nat
  | [] => none
  | c :: cs =>
    match findLastIdx p cs with
    | some i => some (i + 1)
    | none => if p c then some 0 else none

/-- Characters of the set `"0123456789."` used by `hasSuffix`. -/
def isSuffixChar (c : Char) : Bool := c.isDigit || c = '.'

/-- `Utils.cpp`: check if the substring behind the last dot contains only
numbers: `dotPos != npos && Name.find_last_not_of("0123456789.") < dotPos`
(where `npos < dotPos` is false, `npos` being the largest `size_t`). -/
def hasSuffix (Name : List Char) : Bool :=
  match findLastIdx (fun c => c = '.') Name,
        findLastIdx (fun c => !(isSuffixChar c)) Name with
  | some d, some i => decide (i < d)
  | _, _ => false

/-- `Utils.cpp`: remove everything behind the last dot:
`Name.substr(0, Name.find_last_of('.'))` (with `substr(0, npos)` the whole
string). -/
def dropSuffix (Name : List Char) : List Char :=
  Name.take ((findLastIdx (fun c => c = '.') Name).getD Name.length)

/-- The name normalisation done at the start of the declaration path of
`ModuleComparator::compareFunctions` (lines 44-49): drop the numeric suffix
when there is one. -/
def stripName (n : List Char) : List Char :=
  if hasSuffix n = true then dropSuffix n else n

/-! ## The module comparator data model (`ModuleComparator.h` / `Result.h`)

An LLVM `Function*` is modelled by `Func`: the `id` field stands for the
pointer identity, the boolean fields record the observations the comparator
makes about the function (`isDeclaration`, `isIntrinsic`, and the two
SimpLL abstraction predicates, which live outside the compared sources and
are therefore plain attributes here). -/

structure Func where
  id : Nat
  name : List Char
  isDeclaration : Bool
  isIntrinsic : Bool
  isSimpllAbstraction : Bool
  isSimpllFieldAccessAbstraction : Bool
deriving DecidableEq, Repr

/-- `Result::Kind` from `Result.h`. -/
inductive Kind where
  | EQUAL
  | ASSUMED_EQUAL
  | NOT_EQUAL
  | UNKNOWN
deriving DecidableEq, Repr

/-- A `FunPair` key of `ComparedFuns`: a pair of `Function*`, each possibly
null (the erase in the inlining loop can be called with null components). -/
abbrev OFunPair := Option Func × Option Func

/-- The `ComparedFuns` map, as an association list with key-based access
only.  The stored value is the `kind` field of the `Result` object (the other
`Result` fields do not matter for the claims). -/
abbrev Cache := List (OFunPair × Kind)

/-- Key-based lookup (`ComparedFuns.find` / `ComparedFuns.at`). -/
def lookupCF : Cache → OFunPair → Option Kind
  | [], _ => none
  | e :: es, k => if e.1 = k then some e.2 else lookupCF es k

/-- `ComparedFuns.emplace(k, v)`: inserts only when the key is absent. -/
def emplaceCF (c : Cache) (k : OFunPair) (v : Kind) : Cache :=
  if (lookupCF c k).isSome then c else c ++ [(k, v)]

/-- `ComparedFuns.at(k).kind = v`: updates the entry when the key is present
and does nothing otherwise (in C++ a missing key would throw; no claim
depends on that path). -/
def setCF (c : Cache) (k : OFunPair) (v : Kind) : Cache :=
  c.map (fun e => if e.1 = k then (k, v) else e)

/-- `ComparedFuns.erase(k)`. -/
def eraseCF (c : Cache) (k : OFunPair) : Cache :=
  c.filter (fun e => !(decide (e.1 = k)))

/-- The mutable state of a `ModuleComparator` relevant to the claims:
the result cache and the `MissingDefs` vector.  `erasedLog` is ghost
instrumentation: it records every key ever passed to `ComparedFuns.erase`,
so that invariants about erased entries can be stated; it has no influence
on the modelled behaviour. -/
structure CompState where
  comparedFuns : Cache
  missingDefs : List OFunPair
  erasedLog : List OFunPair
deriving DecidableEq, Repr

/-- Erase a key from the cache and record it in the ghost log. -/
def eraseK (st : CompState) (k : OFunPair) : CompState :=
  { st with comparedFuns := eraseCF st.comparedFuns k,
            erasedLog := st.erasedLog ++ [k] }

/-- A cache update performed by a nested comparison running inside a
comparator invocation.  Nested calls to `compareFunctions` create entries
with `emplace` (always with kind `UNKNOWN`, the default of the `Result`
constructor), overwrite kinds with `at`, and remove entries with `erase`;
any recursion effect is a sequence of these operations. -/
inductive CacheOp where
  | empl : OFunPair → CacheOp
  | setk : OFunPair → Kind → CacheOp
  | ers : OFunPair → CacheOp
deriving DecidableEq, Repr

def applyOp (st : CompState) (op : CacheOp) : CompState :=
  match op with
  | CacheOp.empl k => { st with comparedFuns := emplaceCF st.comparedFuns k Kind.UNKNOWN }
  | CacheOp.setk k v => { st with comparedFuns := setCF st.comparedFuns k v }
  | CacheOp.ers k => eraseK st k

def applyOps (st : CompState) (ops : List CacheOp) : CompState :=
  ops.foldl applyOp st

/-- The keys of a cache. -/
def keysCF (c : Cache) : List OFunPair := c.map (fun e => e.1)

/-- A pair is tracked by a state when it is a key of the result cache or
was erased from it at some point (ghost log). -/
def pairTracked (p : OFunPair) (st : CompState) : Prop :=
  p ∈ keysCF st.comparedFuns ∨ p ∈ st.erasedLog

/-! ## The inlining loop of `ModuleComparator::compareFunctions`

The loop body (lines 105-219 of `ModuleComparator.cpp`) interacts with
external code at fixed points: `findCallInst` (resolution of the recorded
call sites), LLVM's `InlineFunction` (success flag), and the re-run of the
`DifferentialFunctionComparator` (its integer result, its effect on
`tryInline`, and the cache updates of the nested comparisons it performs).
Those observations are packaged per iteration in a `LoopIter` oracle. -/

/-- A `CallInst` as observed by the loop: `getCalledFunction` applied to its
called value (null when the called value is not a function). -/
structure CallI where
  callee : Option Func
deriving DecidableEq, Repr

/-- Oracle for one iteration of the inlining loop. -/
structure LoopIter where
  /-- Result of `findCallInst(tryInline.first, FirstFun)` when
  `tryInline.first` is non-null. -/
  findFirst : Option CallI
  /-- Result of `findCallInst(tryInline.second, SecondFun)` when
  `tryInline.second` is non-null. -/
  findSecond : Option CallI
  /-- Return value of `InlineFunction` on the first call, when attempted. -/
  inlineOkFirst : Bool
  /-- Return value of `InlineFunction` on the second call, when attempted. -/
  inlineOkSecond : Bool
  /-- Cache updates performed by nested comparisons during
  `fCompSecond.compare()`. -/
  recEffect : List CacheOp
  /-- Return value of `fCompSecond.compare()`. -/
  rcResult : Int
  /-- Whether each side of `tryInline` is non-null after
  `fCompSecond.compare()` returns (it was reset to null before the call). -/
  rcTryInline : Bool × Bool
deriving DecidableEq, Repr

/-- `isSimpllFieldAccessAbstraction` applied to the callee of an optional
call (`InlinedFunFirst` / `InlinedFunSecond` in the source, which are null
when the call is null). -/
def isFAACallee (c : Option CallI) : Bool :=
  match c with
  | none => false
  | some ci =>
    match ci.callee with
    | none => false
    | some f => f.isSimpllFieldAccessAbstraction

/-- Lines 122-134: if both calls are present and exactly one callee is a
field-access abstraction, null out the abstraction side.  The second `if`
re-tests the (possibly nulled) first call but uses the originally computed
callees, exactly as the source does. -/
def tieBreak (a b : Option CallI) : Option CallI × Option CallI :=
  let a2 := if a.isSome && b.isSome && isFAACallee a && !(isFAACallee b)
            then none else a
  let b2 := if a2.isSome && b.isSome && isFAACallee b && !(isFAACallee a)
            then none else b
  (a2, b2)

/-- Lines 138-176, one side: returns the missing-definition entry recorded
for this side (if any) and whether this side's call was inlined.  A null
callee would dereference null in the source; it is modelled as having no
effect. -/
def processSide (c : Option CallI) (inlineOk : Bool) : Option Func × Bool :=
  match c with
  | none => (none, false)
  | some ci =>
    match ci.callee with
    | none => (none, false)
    | some toInline =>
      if toInline.isDeclaration then
        (if !toInline.isIntrinsic && !toInline.isSimpllAbstraction
         then some toInline else none, false)
      else (none, inlineOk)

/-- The calls the iteration works on after `findCallInst`
(`inlineFirst` / `inlineSecond` before the tie-break; null when the
corresponding side of `tryInline` is null). -/
def foundCalls (tf : Bool × Bool) (o : LoopIter) : Option CallI × Option CallI :=
  (if tf.1 then o.findFirst else none, if tf.2 then o.findSecond else none)

/-- `(InlinedFunFirst, InlinedFunSecond)`: the callees of the found calls,
computed before the tie-break (lines 114-121). -/
def calleePairOf (tf : Bool × Bool) (o : LoopIter) : OFunPair :=
  ((foundCalls tf o).1.bind CallI.callee, (foundCalls tf o).2.bind CallI.callee)

/-- The `inlined` flag computed by the iteration (lines 113, 154, 174). -/
def iterInlined (tf : Bool × Bool) (o : LoopIter) : Bool :=
  let fc := foundCalls tf o
  let eff := tieBreak fc.1 fc.2
  (processSide eff.1 o.inlineOkFirst).2 || (processSide eff.2 o.inlineOkSecond).2

/-- The tail of an iteration that inlined something (lines 188-218): reset
the pair's kind (line 191), run the comparator again with its nested cache
updates (line 199), on equality invalidate the inlined callee pair
(lines 204-205), and record the verdict of the re-comparison
(lines 208-218). -/
def iterStepCore (FirstFun SecondFun : Func) (st1 : CompState)
    (inlinedPair : OFunPair) (o : LoopIter) : CompState :=
  let cf2 := setCF st1.comparedFuns (some FirstFun, some SecondFun) Kind.UNKNOWN
  let st2 := { st1 with comparedFuns := cf2 }
  let st3 := applyOps st2 o.recEffect
  let st4 := if o.rcResult = 0 then eraseK st3 inlinedPair else st3
  let cf5 := setCF st4.comparedFuns (some FirstFun, some SecondFun)
    (if o.rcResult = 0 then Kind.EQUAL else Kind.NOT_EQUAL)
  { st4 with comparedFuns := cf5 }

/-- One iteration of the `while (tryInline.first || tryInline.second)` loop.
Returns the state after the iteration, whether the loop continues (false on
the `break` of line 186), and the `tryInline` value at the next loop-condition
check. -/
def iterStep (FirstFun SecondFun : Func) (st : CompState) (tf : Bool × Bool)
    (o : LoopIter) : CompState × Bool × (Bool × Bool) :=
  let fc := foundCalls tf o
  let eff := tieBreak fc.1 fc.2
  let md1 := (processSide eff.1 o.inlineOkFirst).1
  let md2 := (processSide eff.2 o.inlineOkSecond).1
  -- lines 179-181: push the missing definitions found this iteration
  let st1 := if md1.isSome || md2.isSome
             then { st with missingDefs := st.missingDefs ++ [(md1, md2)] }
             else st
  -- line 184: if nothing was inlined, break
  if iterInlined tf o = false then (st1, false, (false, false))
  else
    (iterStepCore FirstFun SecondFun st1 (calleePairOf tf o) o, true, o.rcTryInline)

/-- The inlining loop.  The oracle list bounds how many iterations can be
observed; the loop stops when `tryInline` has both sides null. -/
def inliningLoop (FirstFun SecondFun : Func) :
    CompState → Bool × Bool → List LoopIter → CompState
  | st, _, [] => st
  | st, tf, o :: rest =>
    if tf.1 || tf.2 then
      let r := iterStep FirstFun SecondFun st tf o
      if r.2.1 then inliningLoop FirstFun SecondFun r.1 r.2.2 rest else r.1
    else st

/-- Oracle for one invocation of `compareFunctions` on two definitions. -/
structure CmpOracle where
  /-- Return value of the first `fComp.compare()` (line 93). -/
  res : Int
  /-- Whether each side of `tryInline` is non-null after the first
  `fComp.compare()`. -/
  tryInlineAfter : Bool × Bool
  /-- Cache updates performed by nested comparisons during the first
  `fComp.compare()`. -/
  recEffect : List CacheOp
  /-- Per-iteration oracles for the inlining loop. -/
  iters : List LoopIter
deriving DecidableEq, Repr

/-- `ModuleComparator::compareFunctions` (`ModuleComparator.cpp`,
lines 28-221). -/
def compareFunctions (controlFlowOnly : Bool) (FirstFun SecondFun : Func)
    (o : CmpOracle) (st : CompState) : CompState :=
  let p : OFunPair := (some FirstFun, some SecondFun)
  -- lines 35-36: create the cache entry (kind defaults to UNKNOWN)
  let st := { st with comparedFuns := emplaceCF st.comparedFuns p Kind.UNKNOWN }
  if FirstFun.isDeclaration = true ∨ SecondFun.isDeclaration = true then
    -- lines 44-49: strip numeric suffixes
    let FirstFunName := stripName FirstFun.name
    let SecondFunName := stripName SecondFun.name
    if controlFlowOnly then
      -- lines 51-57
      if FirstFunName = SecondFunName then
        { st with comparedFuns := setCF st.comparedFuns p Kind.EQUAL }
      else
        { st with comparedFuns := setCF st.comparedFuns p Kind.NOT_EQUAL }
    else
      -- lines 59-71
      if FirstFun.isDeclaration = true ∧ SecondFun.isDeclaration = true
         ∧ FirstFunName = SecondFunName then
        { st with comparedFuns := setCF st.comparedFuns p Kind.EQUAL }
      else if FirstFunName ≠ SecondFunName then
        { st with comparedFuns := setCF st.comparedFuns p Kind.NOT_EQUAL }
      else if FirstFun.isDeclaration = true then
        { st with missingDefs := st.missingDefs ++ [(some FirstFun, none)] }
      else if SecondFun.isDeclaration = true then
        { st with missingDefs := st.missingDefs ++ [(none, some SecondFun)] }
      else st
  else
    -- line 93: the first comparator run, with its nested cache updates
    let st := applyOps st o.recEffect
    if o.res = 0 then
      -- line 99
      { st with comparedFuns := setCF st.comparedFuns p Kind.EQUAL }
    else
      -- line 104 and the loop of lines 105-219
      let st := { st with comparedFuns := setCF st.comparedFuns p Kind.NOT_EQUAL }
      inliningLoop FirstFun SecondFun st o.tryInlineAfter o.iters

/-- A sequence of top-level `compareFunctions` calls. -/
def runCalls (controlFlowOnly : Bool)
    (calls : List ((Func × Func) × CmpOracle)) (st : CompState) : CompState :=
  calls.foldl (fun s c => compareFunctions controlFlowOnly c.1.1 c.1.2 c.2 s) st

/-- The pairs (as cache keys) a sequence of calls compares. -/
def comparedPairs (calls : List ((Func × Func) × CmpOracle)) : List OFunPair :=
  calls.map (fun c => (some c.1.1, some c.1.2))

/-- The empty comparator state. -/
def initState : CompState := { comparedFuns := [], missingDefs := [], erasedLog := [] }

/-! ## `RemoveUnusedReturnValuesPass::run`
(`src/diffkemp/simpll/passes/RemoveUnusedReturnValuesPass.cpp`)

A function is modelled by the observations the pass makes about it; each
use of the function is modelled by the three tests the pass performs on it.
`id` stands for the pointer identity of the `Function` object. -/

structure RUse where
  /-- The user is a `CallInst` or an `InvokeInst`. -/
  isCallOrInvoke : Bool
  /-- `getCalledFunction()` of the user is this very function (otherwise the
  function appears as an argument). -/
  calleeIsThis : Bool
  /-- `use_empty()` of the call: its return value is never used. -/
  resultUnused : Bool
deriving DecidableEq, Repr

structure RFunc where
  id : Nat
  name : List Char
  /-- `getIntrinsicID() != not_intrinsic`. -/
  isIntrinsic : Bool
  /-- `getLinkage() == ExternalLinkage`. -/
  hasExternalLinkage : Bool
  /-- `getReturnType()->isVoidTy()`. -/
  returnsVoid : Bool
  uses : List RUse
deriving DecidableEq, Repr

/-- Lines 56-101: `can_replace` stays true iff every use is a call or invoke
of this very function whose result is unused. -/
def canReplace (f : RFunc) : Bool :=
  f.uses.all (fun u => u.isCallOrInvoke && u.calleeIsThis && u.resultUnused)

/-- Lines 43-103: the guards of the per-function loop.  `mainIds`, when
present, is the set of functions transitively called from `Main`
(`callsTransitively` is external to the compared sources). -/
def willReplace (mainIds : Option (List Nat)) (f : RFunc) : Bool :=
  !f.isIntrinsic && f.hasExternalLinkage && !f.returnsVoid
    && (match mainIds with
        | none => true
        | some l => decide (f.id ∈ l))
    && canReplace f

/-- Lines 103-135: the new void-returning function.  It takes the original's
name (`takeName`), linkage and body; all former call sites are rewritten to
call it with the same arguments and a discarded result (the old calls had no
users), so its uses mirror the original's.  `nid` is the fresh pointer
identity of the created `Function` object. -/
def makeVariant (nid : Nat) (f : RFunc) : RFunc :=
  { id := nid
    name := f.name
    isIntrinsic := false
    hasExternalLinkage := f.hasExternalLinkage
    returnsVoid := true
    uses := f.uses }

/-- `RemoveUnusedReturnValuesPass::run`.  New functions are appended to the
module by `Function::Create` (they return void, so the loop skips them when
it reaches them); the replaced originals are removed from the module at the
end (`removeFromParent`, lines 236-238).  The fresh pointer identity of the
variant replacing `f` is modelled as `off + f.id`; callers supply `off`
larger than every existing id. -/
def removeUnusedReturnValuesRun (mainIds : Option (List Nat)) (off : Nat)
    (Mod : List RFunc) : List RFunc :=
  let newFuns := (Mod.filter (fun f => willReplace mainIds f)).map
    (fun f => makeVariant (off + f.id) f)
  Mod.filter (fun f => !(willReplace mainIds f)) ++ newFuns

/-! ## `inlineFunction` (`Utils.cpp`, lines 180-203)

Only the inlining attributes matter; `id` is the pointer identity. -/

structure IFunc where
  id : Nat
  alwaysInline : Bool
  noInline : Bool
deriving DecidableEq, Repr

/-- The per-function body of the attribute loop of `inlineFunction`
(lines 183-195): mark `InlineFun` with `alwaysinline` (dropping `noinline`),
mark every other function with `noinline` (dropping `alwaysinline`). -/
def setInlineAttrs (InlineFun : Nat) (Fun : IFunc) : IFunc :=
  if Fun.id = InlineFun then
    let f1 := if !Fun.alwaysInline then { Fun with alwaysInline := true } else Fun
    if f1.noInline then { f1 with noInline := false } else f1
  else
    let f1 := if !Fun.noInline then { Fun with noInline := true } else Fun
    if f1.alwaysInline then { f1 with alwaysInline := false } else f1

/-- `inlineFunction`: the attribute rewriting loop over the whole module.
The `AlwaysInlinerPass` run that follows (lines 197-202) inlines call sites
but does not touch these attributes, so the module this function returns is
what the caller observes. -/
def inlineFunction (Mod : List IFunc) (InlineFun : Nat) : List IFunc :=
  Mod.map (setInlineAttrs InlineFun)

/-! ## Concrete instances used by closed statements -/

/-- A declaration named `foo`. -/
def declFoo : Func :=
  { id := 1, name := "foo".toList, isDeclaration := true, isIntrinsic := false,
    isSimpllAbstraction := false, isSimpllFieldAccessAbstraction := false }

/-- A declaration named `foo.17`. -/
def declFoo17 : Func :=
  { id := 2, name := "foo.17".toList, isDeclaration := true, isIntrinsic := false,
    isSimpllAbstraction := false, isSimpllFieldAccessAbstraction := false }

/-- An oracle that is never consulted (declaration fast path). -/
def oracleDecl : CmpOracle :=
  { res := 1, tryInlineAfter := (false, false), recEffect := [], iters := [] }

/-- A function definition used in concrete runs. -/
def defnB1 : Func :=
  { id := 11, name := "b1".toList, isDeclaration := false, isIntrinsic := false,
    isSimpllAbstraction := false, isSimpllFieldAccessAbstraction := false }

def defnB2 : Func :=
  { id := 12, name := "b2".toList, isDeclaration := false, isIntrinsic := false,
    isSimpllAbstraction := false, isSimpllFieldAccessAbstraction := false }

def defnA1 : Func :=
  { id := 13, name := "a1".toList, isDeclaration := false, isIntrinsic := false,
    isSimpllAbstraction := false, isSimpllFieldAccessAbstraction := false }

def defnA2 : Func :=
  { id := 14, name := "a2".toList, isDeclaration := false, isIntrinsic := false,
    isSimpllAbstraction := false, isSimpllFieldAccessAbstraction := false }

/-- An inlining-loop iteration that inlines calls to `defnB1` / `defnB2` on
the two sides and whose re-comparison returns 0 (equal). -/
def demoIter : LoopIter :=
  { findFirst := some { callee := some defnB1 },
    findSecond := some { callee := some defnB2 },
    inlineOkFirst := true, inlineOkSecond := true,
    recEffect := [], rcResult := 0, rcTryInline := (false, false) }

/-- Oracle for a comparison that ends `NOT_EQUAL` without inlining. -/
def oracleNE : CmpOracle :=
  { res := 1, tryInlineAfter := (false, false), recEffect := [], iters := [] }

/-- Oracle for a comparison that fails, inlines the `defnB1` / `defnB2`
callees and then succeeds. -/
def oracleInl : CmpOracle :=
  { res := 1, tryInlineAfter := (true, true), recEffect := [], iters := [demoIter] }

/-- Compare `(defnB1, defnB2)` directly, then `(defnA1, defnA2)` whose
inlining loop inlines `defnB1` / `defnB2` and afterwards finds the pair
equal, which erases the cached `(defnB1, defnB2)` verdict. -/
def demoCalls : List ((Func × Func) × CmpOracle) :=
  [((defnB1, defnB2), oracleNE), ((defnA1, defnA2), oracleInl)]

/-- A declaration named `bar`. -/
def declBar : Func :=
  { id := 3, name := "bar".toList, isDeclaration := true, isIntrinsic := false,
    isSimpllAbstraction := false, isSimpllFieldAccessAbstraction := false }

/-- A definition named `foo`. -/
def defnFoo : Func :=
  { id := 4, name := "foo".toList, isDeclaration := false, isIntrinsic := false,
    isSimpllAbstraction := false, isSimpllFieldAccessAbstraction := false }

/-- A non-void external function whose single use is a call that discards
the result: the pass will replace it. -/
def demoRFunc : RFunc :=
  { id := 0, name := "f".toList, isIntrinsic := false, hasExternalLinkage := true,
    returnsVoid := false,
    uses := [{ isCallOrInvoke := true, calleeIsThis := true, resultUnused := true }] }

/-- A state whose cache holds a `NOT_EQUAL` verdict for `(defnA1, defnA2)`,
as at entry of the inlining loop. -/
def stNotEqual : CompState :=
  { comparedFuns := [((some defnA1, some defnA2), Kind.NOT_EQUAL)],
    missingDefs := [], erasedLog := [] }

/-- An iteration in which `findCallInst` finds no call on either side, so
nothing can be inlined. -/
def iterNone : LoopIter :=
  { findFirst := none, findSecond := none, inlineOkFirst := false,
    inlineOkSecond := false, recEffect := [], rcResult := 1,
    rcTryInline := (false, false) }

/-- A synthesized field-access abstraction. -/
def funFAA : Func :=
  { id := 21, name := "simpll__fieldaccess_0".toList, isDeclaration := false,
    isIntrinsic := false, isSimpllAbstraction := true,
    isSimpllFieldAccessAbstraction := true }

/-- A call whose callee is the field-access abstraction. -/
def callFAA : CallI := { callee := some funFAA }

/-- A call whose callee is the ordinary definition `defnB1`. -/
def callB1 : CallI := { callee := some defnB1 }

/-- An iteration whose first call targets a field-access abstraction and
whose second call targets an ordinary function. -/
def iterFAA : LoopIter :=
  { findFirst := some callFAA, findSecond := some callB1,
    inlineOkFirst := true, inlineOkSecond := true, recEffect := [],
    rcResult := 1, rcTryInline := (false, false) }

/-! ## Basic facts about `findLastIdx` -/

theorem findLastIdx_append_some (p : Char → Bool) (l₁ l₂ : List Char) (i : Nat)
    (h : findLastIdx p l₂ = some i) :
    findLastIdx p (l₁ ++ l₂) = some (l₁.length + i) := by
  induction l₁ with
  | nil => simpa using h
  | cons c cs ih =>
    simp only [List.cons_append, findLastIdx, List.append_eq, ih, List.length_cons]
    congr 1
    omega

theorem findLastIdx_append_none (p : Char → Bool) (l₁ l₂ : List Char)
    (h : findLastIdx p l₂ = none) :
    findLastIdx p (l₁ ++ l₂) = findLastIdx p l₁ := by
  induction l₁ with
  | nil => simpa using h
  | cons c cs ih =>
    simp only [List.cons_append, findLastIdx, List.append_eq, ih]

theorem findLastIdx_eq_none_of_all (p : Char → Bool) (l : List Char)
    (h : ∀ c ∈ l, p c = false) : findLastIdx p l = none := by
  induction l with
  | nil => rfl
  | cons c cs ih =>
    have hc : p c = false := h c (List.mem_cons_self c cs)
    have hcs : findLastIdx p cs = none :=
      ih (fun x hx => h x (List.mem_cons_of_mem c hx))
    simp [findLastIdx, hcs, hc]

theorem findLastIdx_isSome_of_exists (p : Char → Bool) (l : List Char)
    (h : ∃ c ∈ l, p c = true) : (findLastIdx p l).isSome = true := by
  induction l with
  | nil => rcases h with ⟨c, hc, _⟩; cases hc
  | cons c cs ih =>
    rcases h with ⟨x, hx, hpx⟩
    rcases List.mem_cons.mp hx with hx | hx
    · subst hx
      cases hcs : findLastIdx p cs with
      | some i => simp [findLastIdx, hcs]
      | none => simp [findLastIdx, hcs, hpx]
    · have := ih ⟨x, hx, hpx⟩
      cases hcs : findLastIdx p cs with
      | some i => simp [findLastIdx, hcs]
      | none => rw [hcs] at this; cases this

theorem findLastIdx_lt_length (p : Char → Bool) (l : List Char) (i : Nat)
    (h : findLastIdx p l = some i) : i < l.length := by
  induction l generalizing i with
  | nil => cases h
  | cons c cs ih =>
    simp only [findLastIdx] at h
    cases hcs : findLastIdx p cs with
    | some j =>
      rw [hcs] at h
      cases h
      exact Nat.succ_lt_succ (ih j hcs)
    | none =>
      rw [hcs] at h
      by_cases hp : p c = true
      · simp [hp] at h
        subst h
        exact Nat.succ_pos _
      · simp [hp] at h

/-! ## Cache lemmas -/

theorem lookupCF_append_left_none (c c' : Cache) (k : OFunPair)
    (h : lookupCF c k = none) : lookupCF (c ++ c') k = lookupCF c' k := by
  induction c with
  | nil => rfl
  | cons e es ih =>
    by_cases he : e.1 = k
    · simp [lookupCF, he] at h
    · simp only [lookupCF, he, if_neg, List.cons_append, if_false] at h ⊢
      exact ih h

theorem lookupCF_emplaceCF_self (c : Cache) (k : OFunPair) (v : Kind)
    (h : lookupCF c k = none) : lookupCF (emplaceCF c k v) k = some v := by
  unfold emplaceCF
  rw [h]
  simp only [Option.isSome_none, Bool.false_eq_true, if_false]
  rw [lookupCF_append_left_none c [(k, v)] k h]
  simp [lookupCF]

theorem lookupCF_setCF_self (c : Cache) (k : OFunPair) (v : Kind)
    (h : (lookupCF c k).isSome = true) : lookupCF (setCF c k v) k = some v := by
  induction c with
  | nil => simp [lookupCF] at h
  | cons e es ih =>
    by_cases he : e.1 = k
    · simp [setCF, lookupCF, he]
    · simp only [lookupCF, he, if_neg, if_false] at h
      simp only [setCF, List.map_cons, if_neg he, lookupCF, he, if_false]
      simpa [setCF] using ih h

theorem isSome_lookupCF_emplaceCF (c : Cache) (k : OFunPair) (v : Kind) :
    (lookupCF (emplaceCF c k v) k).isSome = true := by
  by_cases h : (lookupCF c k).isSome = true
  · simp only [emplaceCF, h, if_true]
  · have hn : lookupCF c k = none := by
      cases hl : lookupCF c k with
      | none => rfl
      | some w => rw [hl] at h; simp at h
    rw [lookupCF_emplaceCF_self c k v hn]
    rfl

theorem lookupCF_eraseCF_self (c : Cache) (k : OFunPair) :
    lookupCF (eraseCF c k) k = none := by
  induction c with
  | nil => rfl
  | cons e es ih =>
    unfold eraseCF at ih ⊢
    by_cases he : e.1 = k <;> simp [List.filter_cons, he, lookupCF, ih]

theorem lookupCF_setCF_of_none (c : Cache) (k p : OFunPair) (v : Kind)
    (h : lookupCF c k = none) : lookupCF (setCF c p v) k = none := by
  induction c with
  | nil => rfl
  | cons e es ih =>
    simp only [lookupCF] at h
    by_cases he : e.1 = k
    · simp [he] at h
    · rw [if_neg he] at h
      by_cases hep : e.1 = p
      · have hpk : ¬ p = k := by rw [← hep]; exact he
        simp only [setCF, List.map_cons, if_pos hep, lookupCF, hpk, if_false]
        simpa [setCF] using ih h
      · simp only [setCF, List.map_cons, if_neg hep, lookupCF, he, if_false]
        simpa [setCF] using ih h

/-! ## Claim theorems -/

/-- C10.  After the attribute loop of `inlineFunction(Mod, InlineFun)`, the
module keeps exactly its functions (identified by `id`), every function
other than `InlineFun` carries `noinline` and lacks `alwaysinline`, and
`InlineFun` carries `alwaysinline` and lacks `noinline`.  Nothing later in
`inlineFunction` touches attributes, so these changes persist when it
returns. -/
theorem inlineFunction_sets_attributes (Mod : List IFunc) (InlineFun : Nat) :
    (inlineFunction Mod InlineFun).map IFunc.id = Mod.map IFunc.id
    ∧ ∀ f ∈ inlineFunction Mod InlineFun,
        (f.id = InlineFun → f.alwaysInline = true ∧ f.noInline = false)
        ∧ (f.id ≠ InlineFun → f.noInline = true ∧ f.alwaysInline = false) := by
  constructor
  · unfold inlineFunction
    rw [List.map_map]
    apply List.map_congr_left
    intro x _
    show (setInlineAttrs InlineFun x).id = x.id
    unfold setInlineAttrs
    by_cases h : x.id = InlineFun
    · rw [if_pos h]
      cases hai : x.alwaysInline <;> cases hni : x.noInline <;> simp [hai, hni]
    · rw [if_neg h]
      cases hai : x.alwaysInline <;> cases hni : x.noInline <;> simp [hai, hni]
  · intro f hf
    rcases List.mem_map.mp hf with ⟨x, _, rfl⟩
    unfold setInlineAttrs
    by_cases h : x.id = InlineFun
    · simp only [h, if_true]
      constructor
      · intro _
        cases hai : x.alwaysInline <;> cases hni : x.noInline <;>
          simp [hai, hni]
      · intro hne
        exfalso
        apply hne
        cases hai : x.alwaysInline <;> cases hni : x.noInline <;>
          simp [hai, hni, h]
    · simp only [h, if_false]
      constructor
      · intro heq
        exfalso
        apply h
        cases hai : x.alwaysInline <;> cases hni : x.noInline <;>
          simpa [hai, hni] using heq
      · intro _
        cases hai : x.alwaysInline <;> cases hni : x.noInline <;>
          simp [hai, hni]

/-- C10 witness: a concrete module of two functions, instantiated at the
function other than `InlineFun` in the rewritten module. -/
theorem inlineFunction_sets_attributes_witness :
    (({ id := 1, alwaysInline := false, noInline := true } : IFunc).id = 0 →
      ({ id := 1, alwaysInline := false, noInline := true } : IFunc).alwaysInline = true
      ∧ ({ id := 1, alwaysInline := false, noInline := true } : IFunc).noInline = false)
    ∧ (({ id := 1, alwaysInline := false, noInline := true } : IFunc).id ≠ 0 →
      ({ id := 1, alwaysInline := false, noInline := true } : IFunc).noInline = true
      ∧ ({ id := 1, alwaysInline := false, noInline := true } : IFunc).alwaysInline = false) :=
  (inlineFunction_sets_attributes
    [{ id := 0, alwaysInline := false, noInline := true },
     { id := 1, alwaysInline := true, noInline := false }] 0).2
    { id := 1, alwaysInline := false, noInline := true } (by decide)

/-- C6.  For every name of the form `base ++ "." ++ digits` where `base`
contains a character that is neither a digit nor a dot and `digits` consists
of digits, `hasSuffix` is true and `dropSuffix` returns `base`; consequently
two declarations named `foo` and `foo.17` compare `EQUAL` in the declaration
fast path, because their stripped names match. -/
theorem hasSuffix_dropSuffix_base (base digits : List Char)
    (hb : ∃ c ∈ base, isSuffixChar c = false)
    (hd : ∀ c ∈ digits, c.isDigit = true) :
    (hasSuffix (base ++ '.' :: digits) = true
      ∧ dropSuffix (base ++ '.' :: digits) = base)
    ∧ lookupCF (compareFunctions false declFoo declFoo17 oracleDecl
        initState).comparedFuns (some declFoo, some declFoo17)
      = some Kind.EQUAL := by
  have hdotdig : findLastIdx (fun c => decide (c = '.')) digits = none := by
    apply findLastIdx_eq_none_of_all
    intro c hc
    have hcd := hd c hc
    by_cases h : c = '.'
    · rw [h] at hcd
      exact absurd hcd (by decide)
    · simp [h]
  have h1 : findLastIdx (fun c => decide (c = '.')) ('.' :: digits) = some 0 := by
    simp [findLastIdx, hdotdig]
  have h2 : findLastIdx (fun c => decide (c = '.')) (base ++ '.' :: digits)
      = some base.length := by
    have := findLastIdx_append_some (fun c => decide (c = '.')) base
      ('.' :: digits) 0 h1
    simpa using this
  have hq1 : findLastIdx (fun c => !(isSuffixChar c)) ('.' :: digits) = none := by
    apply findLastIdx_eq_none_of_all
    intro c hc
    rcases List.mem_cons.mp hc with h | h
    · rw [h]; decide
    · have := hd c h
      simp [isSuffixChar, this]
  have hq2 : findLastIdx (fun c => !(isSuffixChar c)) (base ++ '.' :: digits)
      = findLastIdx (fun c => !(isSuffixChar c)) base :=
    findLastIdx_append_none _ base ('.' :: digits) hq1
  rcases hb with ⟨c, hc, hcp⟩
  have hq3 : (findLastIdx (fun c => !(isSuffixChar c)) base).isSome = true :=
    findLastIdx_isSome_of_exists _ base ⟨c, hc, by simp [hcp]⟩
  rcases Option.isSome_iff_exists.mp hq3 with ⟨i, hi⟩
  have hilt : i < base.length := findLastIdx_lt_length _ base i hi
  refine ⟨⟨?_, ?_⟩, by decide⟩
  · unfold hasSuffix
    rw [h2, hq2, hi]
    simpa using hilt
  · unfold dropSuffix
    rw [h2]
    exact List.take_left base ('.' :: digits)

/-- C6 witness: `base = "foo"`, `digits = "17"`. -/
theorem hasSuffix_dropSuffix_base_witness :
    hasSuffix ('f' :: 'o' :: 'o' :: '.' :: '1' :: '7' :: []) = true
    ∧ dropSuffix ('f' :: 'o' :: 'o' :: '.' :: '1' :: '7' :: [])
        = ('f' :: 'o' :: 'o' :: []) :=
  ((hasSuffix_dropSuffix_base ('f' :: 'o' :: 'o' :: []) ('1' :: '7' :: [])
    (by decide) (by decide)).1)

/-- C3.  Declaration fast path with `control-flow-only` off: when both sides
are declarations and the suffix-stripped names agree the recorded verdict is
`EQUAL`; when at least one side is a declaration and the stripped names
differ the recorded verdict is `NOT_EQUAL`. -/
theorem compareFunctions_decl_fast_path (F1 F2 : Func) (o : CmpOracle)
    (st : CompState) :
    (F1.isDeclaration = true → F2.isDeclaration = true →
      stripName F1.name = stripName F2.name →
      lookupCF (compareFunctions false F1 F2 o st).comparedFuns
        (some F1, some F2) = some Kind.EQUAL)
    ∧ ((F1.isDeclaration = true ∨ F2.isDeclaration = true) →
      stripName F1.name ≠ stripName F2.name →
      lookupCF (compareFunctions false F1 F2 o st).comparedFuns
        (some F1, some F2) = some Kind.NOT_EQUAL) := by
  constructor
  · intro h1 h2 hn
    simp only [compareFunctions]
    rw [if_pos (Or.inl h1)]
    rw [if_neg (by simp : ¬ (false = true))]
    rw [if_pos ⟨h1, h2, hn⟩]
    exact lookupCF_setCF_self _ _ _ (isSome_lookupCF_emplaceCF _ _ _)
  · intro hd hne
    simp only [compareFunctions]
    rw [if_pos hd]
    rw [if_neg (by simp : ¬ (false = true))]
    rw [if_neg (fun h => hne h.2.2)]
    rw [if_pos hne]
    exact lookupCF_setCF_self _ _ _ (isSome_lookupCF_emplaceCF _ _ _)

/-- C3 witness: `foo` vs `foo.17` (both declarations, stripped names agree)
and `foo` vs `bar` (stripped names differ). -/
theorem compareFunctions_decl_fast_path_witness :
    lookupCF (compareFunctions false declFoo declFoo17 oracleDecl
      initState).comparedFuns (some declFoo, some declFoo17) = some Kind.EQUAL
    ∧ lookupCF (compareFunctions false declFoo declBar oracleDecl
      initState).comparedFuns (some declFoo, some declBar) = some Kind.NOT_EQUAL :=
  ⟨(compareFunctions_decl_fast_path declFoo declFoo17 oracleDecl initState).1
      (by decide) (by decide) (by decide),
   (compareFunctions_decl_fast_path declFoo declBar oracleDecl initState).2
      (Or.inl (by decide)) (by decide)⟩

/-- C8.  Declaration fast path with `control-flow-only` on: with at least one
declaration the verdict is `EQUAL` exactly when the stripped names match and
`NOT_EQUAL` otherwise. -/
theorem compareFunctions_cfo_decl_path (F1 F2 : Func) (o : CmpOracle)
    (st : CompState)
    (hd : F1.isDeclaration = true ∨ F2.isDeclaration = true) :
    lookupCF (compareFunctions true F1 F2 o st).comparedFuns
      (some F1, some F2)
      = some (if stripName F1.name = stripName F2.name
              then Kind.EQUAL else Kind.NOT_EQUAL) := by
  have key : compareFunctions true F1 F2 o st
      = { comparedFuns := setCF (emplaceCF st.comparedFuns (some F1, some F2) Kind.UNKNOWN)
            (some F1, some F2)
            (if stripName F1.name = stripName F2.name then Kind.EQUAL else Kind.NOT_EQUAL),
          missingDefs := st.missingDefs, erasedLog := st.erasedLog } := by
    rcases hd with h | h <;> by_cases hn : stripName F1.name = stripName F2.name <;>
      simp [compareFunctions, h, hn]
  rw [key]
  exact lookupCF_setCF_self _ _ _ (isSome_lookupCF_emplaceCF _ _ _)

/-- C8 witness: `foo` vs `foo.17` under `control-flow-only`. -/
theorem compareFunctions_cfo_decl_path_witness :
    lookupCF (compareFunctions true declFoo declFoo17 oracleDecl
      initState).comparedFuns (some declFoo, some declFoo17)
      = some (if stripName declFoo.name = stripName declFoo17.name
              then Kind.EQUAL else Kind.NOT_EQUAL) :=
  compareFunctions_cfo_decl_path declFoo declFoo17 oracleDecl initState
    (Or.inl (by decide))

/-- C4.  Declaration fast path, `control-flow-only` off, exactly one side a
declaration and stripped names equal: a `MissingDefs` entry is pushed whose
declaration-side component is that declaration and whose other component is
null, and the pair's cached verdict stays `UNKNOWN` (the kind the entry was
created with; the hypothesis `habs` says the pair was not in the cache
before). -/
theorem compareFunctions_missing_def (F1 F2 : Func) (o : CmpOracle)
    (st : CompState)
    (hx : F1.isDeclaration ≠ F2.isDeclaration)
    (hn : stripName F1.name = stripName F2.name)
    (habs : lookupCF st.comparedFuns (some F1, some F2) = none) :
    lookupCF (compareFunctions false F1 F2 o st).comparedFuns
      (some F1, some F2) = some Kind.UNKNOWN
    ∧ (compareFunctions false F1 F2 o st).missingDefs
      = st.missingDefs
        ++ [if F1.isDeclaration = true
            then ((some F1 : Option Func), (none : Option Func))
            else ((none : Option Func), (some F2 : Option Func))] := by
  rcases Bool.dichotomy F1.isDeclaration with hd1 | hd1
  · have hd2 : F2.isDeclaration = true := by
      cases h2 : F2.isDeclaration
      · rw [hd1, h2] at hx; exact absurd rfl hx
      · rfl
    have hpath : compareFunctions false F1 F2 o st
        = { comparedFuns := emplaceCF st.comparedFuns (some F1, some F2) Kind.UNKNOWN,
            missingDefs := st.missingDefs ++ [(none, some F2)],
            erasedLog := st.erasedLog } := by
      simp [compareFunctions, hd1, hd2, hn]
    rw [hpath]
    refine ⟨lookupCF_emplaceCF_self _ _ _ habs, ?_⟩
    simp [hd1]
  · have hd2 : F2.isDeclaration = false := by
      cases h2 : F2.isDeclaration
      · rfl
      · rw [hd1, h2] at hx; exact absurd rfl hx
    have hpath : compareFunctions false F1 F2 o st
        = { comparedFuns := emplaceCF st.comparedFuns (some F1, some F2) Kind.UNKNOWN,
            missingDefs := st.missingDefs ++ [(some F1, none)],
            erasedLog := st.erasedLog } := by
      simp [compareFunctions, hd1, hd2, hn]
    rw [hpath]
    refine ⟨lookupCF_emplaceCF_self _ _ _ habs, ?_⟩
    simp [hd1]

/-- C4 witness: declaration `foo` against definition `foo`. -/
theorem compareFunctions_missing_def_witness :
    lookupCF (compareFunctions false declFoo defnFoo oracleDecl
      initState).comparedFuns (some declFoo, some defnFoo) = some Kind.UNKNOWN
    ∧ (compareFunctions false declFoo defnFoo oracleDecl initState).missingDefs
      = initState.missingDefs
        ++ [if declFoo.isDeclaration = true
            then ((some declFoo : Option Func), (none : Option Func))
            else ((none : Option Func), (some defnFoo : Option Func))] :=
  compareFunctions_missing_def declFoo defnFoo oracleDecl initState
    (by decide) (by decide) (by decide)

theorem iterStep_not_inlined_parts (F1 F2 : Func) (st : CompState)
    (tf : Bool × Bool) (o : LoopIter) (hni : iterInlined tf o = false) :
    (iterStep F1 F2 st tf o).2.1 = false
    ∧ ((iterStep F1 F2 st tf o).1).comparedFuns = st.comparedFuns
    ∧ ((iterStep F1 F2 st tf o).1).erasedLog = st.erasedLog := by
  simp only [iterStep]
  rw [if_pos hni]
  refine ⟨rfl, ?_, ?_⟩ <;> (split <;> rfl)

/-- C1.  An iteration of the inlining loop in which nothing was inlined
breaks out of the loop at once (the remaining oracle is never consulted),
leaves the result cache untouched, and therefore leaves the `NOT_EQUAL`
verdict recorded for the compared pair.  The hypothesis `hk` holds at every
loop entry: the kind is set to `NOT_EQUAL` at line 104 before the loop and
at line 217 at the end of every continuing iteration (a re-comparison that
returns 0 empties `tryInline`, ending the loop). -/
theorem inliningLoop_breaks_not_equal (F1 F2 : Func) (st : CompState)
    (tf : Bool × Bool) (o : LoopIter) (rest : List LoopIter)
    (htf : (tf.1 || tf.2) = true)
    (hni : iterInlined tf o = false)
    (hk : lookupCF st.comparedFuns (some F1, some F2) = some Kind.NOT_EQUAL) :
    inliningLoop F1 F2 st tf (o :: rest) = inliningLoop F1 F2 st tf [o]
    ∧ (inliningLoop F1 F2 st tf (o :: rest)).comparedFuns = st.comparedFuns
    ∧ lookupCF (inliningLoop F1 F2 st tf (o :: rest)).comparedFuns
        (some F1, some F2) = some Kind.NOT_EQUAL := by
  obtain ⟨hb, hcf, _⟩ := iterStep_not_inlined_parts F1 F2 st tf o hni
  have hloop : ∀ rest' : List LoopIter,
      inliningLoop F1 F2 st tf (o :: rest') = (iterStep F1 F2 st tf o).1 := by
    intro rest'
    simp only [inliningLoop]
    rw [if_pos htf, hb]
    simp
  rw [hloop rest, hloop []]
  exact ⟨rfl, hcf, by rw [hcf]; exact hk⟩

/-- C1 witness: a loop entered with `NOT_EQUAL` cached whose first iteration
finds no call to inline; the remaining oracle is irrelevant. -/
theorem inliningLoop_breaks_not_equal_witness :
    inliningLoop defnA1 defnA2 stNotEqual (true, true) (iterNone :: [demoIter])
      = inliningLoop defnA1 defnA2 stNotEqual (true, true) [iterNone]
    ∧ (inliningLoop defnA1 defnA2 stNotEqual (true, true)
        (iterNone :: [demoIter])).comparedFuns = stNotEqual.comparedFuns
    ∧ lookupCF (inliningLoop defnA1 defnA2 stNotEqual (true, true)
        (iterNone :: [demoIter])).comparedFuns (some defnA1, some defnA2)
      = some Kind.NOT_EQUAL :=
  inliningLoop_breaks_not_equal defnA1 defnA2 stNotEqual (true, true) iterNone
    [demoIter] (by decide) (by decide) (by decide)

/-- C2.  In an iteration of the inlining loop that inlined something and
whose re-comparison returned 0 (equal), the cache entry of the callee pair
found for inlining (`InlinedFunFirst`, `InlinedFunSecond`) is erased: after
the iteration no verdict at all — in particular no earlier `NOT_EQUAL`
verdict — remains cached for that pair. -/
theorem iterStep_equal_erases_callee_pair (F1 F2 : Func) (st : CompState)
    (tf : Bool × Bool) (o : LoopIter)
    (hin : iterInlined tf o = true) (hrc : o.rcResult = 0) :
    lookupCF ((iterStep F1 F2 st tf o).1).comparedFuns (calleePairOf tf o)
      = none := by
  have hni : ¬ (iterInlined tf o = false) := by simp [hin]
  simp only [iterStep]
  rw [if_neg hni]
  simp only [iterStepCore, eraseK, hrc]
  simp
  exact lookupCF_setCF_of_none _ _ _ _ (lookupCF_eraseCF_self _ _)

/-- C2 witness: the iteration that inlines the `defnB1` / `defnB2` callees
and whose re-comparison returns 0. -/
theorem iterStep_equal_erases_callee_pair_witness :
    lookupCF ((iterStep defnA1 defnA2 stNotEqual (true, true) demoIter).1).comparedFuns
      (calleePairOf (true, true) demoIter) = none :=
  iterStep_equal_erases_callee_pair defnA1 defnA2 stNotEqual (true, true)
    demoIter (by decide) (by decide)

/-- C9.  When both sides have a call to inline and exactly one callee is a
field-access abstraction, the tie-break nulls the abstraction side, so only
the other side is processed in that iteration: the iteration's `inlined`
flag is exactly the non-abstraction side's contribution. -/
theorem tieBreak_defers_field_access_abstraction (tf : Bool × Bool)
    (o : LoopIter) (cA cB : CallI) (gA gB : Func)
    (htf : tf = (true, true))
    (h1 : o.findFirst = some cA) (h2 : o.findSecond = some cB)
    (hgA : cA.callee = some gA) (hgB : cB.callee = some gB) :
    (gA.isSimpllFieldAccessAbstraction = true →
      gB.isSimpllFieldAccessAbstraction = false →
      tieBreak (some cA) (some cB) = (none, some cB)
      ∧ iterInlined tf o = (processSide (some cB) o.inlineOkSecond).2)
    ∧ (gB.isSimpllFieldAccessAbstraction = true →
      gA.isSimpllFieldAccessAbstraction = false →
      tieBreak (some cA) (some cB) = (some cA, none)
      ∧ iterInlined tf o = (processSide (some cA) o.inlineOkFirst).2) := by
  subst htf
  constructor
  · intro ha hb
    have ht : tieBreak (some cA) (some cB) = (none, some cB) := by
      simp [tieBreak, isFAACallee, hgA, hgB, ha, hb]
    refine ⟨ht, ?_⟩
    simp [iterInlined, foundCalls, h1, h2, ht, processSide]
  · intro hb ha
    have ht : tieBreak (some cA) (some cB) = (some cA, none) := by
      simp [tieBreak, isFAACallee, hgA, hgB, ha, hb]
    refine ⟨ht, ?_⟩
    simp [iterInlined, foundCalls, h1, h2, ht, processSide]

/-- C9 witness: first callee a field-access abstraction, second an ordinary
definition. -/
theorem tieBreak_defers_field_access_abstraction_witness :
    tieBreak (some callFAA) (some callB1) = (none, some callB1)
    ∧ iterInlined (true, true) iterFAA
      = (processSide (some callB1) iterFAA.inlineOkSecond).2 :=
  (tieBreak_defers_field_access_abstraction (true, true) iterFAA callFAA
    callB1 funFAA defnB1 rfl (by decide) (by decide) (by decide) (by decide)).1
    (by decide) (by decide)

/-- C5 counterexample.  The pass replaces `demoRFunc` (all guards hold), yet
no function with the original's identity remains in the module: the original
is removed by `removeFromParent`, not preserved as a clone; only the
void-returning variant (which took the original's name) is left. -/
theorem removeUnusedReturnValues_original_not_preserved :
    willReplace none demoRFunc = true
    ∧ (removeUnusedReturnValuesRun none 1 [demoRFunc]).filter
        (fun g => decide (g.id = demoRFunc.id)) = []
    ∧ (removeUnusedReturnValuesRun none 1 [demoRFunc]).map RFunc.returnsVoid
        = [true] := by decide

/-- C5 amended.  After the pass replaces a non-void function, the original
function is *removed* from the module; the void-returning variant that took
over its name (and call sites) is in the module instead.  (The replacement
condition already requires every use to be a call or invoke of the function
with an unused result, so there are no "other uses" to reach the original
through.) -/
theorem removeUnusedReturnValues_removes_original (m : Option (List Nat))
    (off : Nat) (Mod : List RFunc) (f : RFunc)
    (hf : f ∈ Mod) (hw : willReplace m f = true)
    (hfresh : ∀ g ∈ Mod, g.id < off)
    (hnodup : (Mod.map RFunc.id).Nodup) :
    (∀ g ∈ removeUnusedReturnValuesRun m off Mod, g.id ≠ f.id)
    ∧ ∃ g ∈ removeUnusedReturnValuesRun m off Mod,
        g.id = off + f.id ∧ g.name = f.name ∧ g.returnsVoid = true := by
  constructor
  · intro g hg
    unfold removeUnusedReturnValuesRun at hg
    rcases List.mem_append.mp hg with hg | hg
    · rcases List.mem_filter.mp hg with ⟨hgMod, hgw⟩
      intro he
      have hgf : g = f := List.inj_on_of_nodup_map hnodup hgMod hf he
      rw [hgf, hw] at hgw
      simp at hgw
    · rcases List.mem_map.mp hg with ⟨x, hx, rfl⟩
      intro he
      have hlt : f.id < off := hfresh f hf
      simp only [makeVariant] at he
      omega
  · refine ⟨makeVariant (off + f.id) f, ?_, rfl, rfl, rfl⟩
    unfold removeUnusedReturnValuesRun
    apply List.mem_append.mpr
    right
    exact List.mem_map_of_mem _ (List.mem_filter.mpr ⟨hf, hw⟩)

/-- C5 amended witness: the single-function demo module, instantiated at the
variant in the rewritten module. -/
theorem removeUnusedReturnValues_removes_original_witness :
    (makeVariant (1 + demoRFunc.id) demoRFunc).id ≠ demoRFunc.id
    ∧ (makeVariant (1 + demoRFunc.id) demoRFunc).returnsVoid = true :=
  ⟨(removeUnusedReturnValues_removes_original none 1 [demoRFunc] demoRFunc
      (by decide) (by decide) (by decide) (by decide)).1
      (makeVariant (1 + demoRFunc.id) demoRFunc) (by decide),
   by decide⟩

/-! ## Key-set lemmas for the cache -/

theorem mem_keys_of_lookup_isSome (c : Cache) (k : OFunPair)
    (h : (lookupCF c k).isSome = true) : k ∈ keysCF c := by
  induction c with
  | nil => simp [lookupCF] at h
  | cons e es ih =>
    by_cases he : e.1 = k
    · exact List.mem_cons.mpr (Or.inl he.symm)
    · simp only [lookupCF, he, if_false] at h
      exact List.mem_cons.mpr (Or.inr (ih h))

theorem not_mem_keys_of_lookup_none (c : Cache) (k : OFunPair)
    (h : lookupCF c k = none) : ¬ k ∈ keysCF c := by
  induction c with
  | nil => simp [keysCF]
  | cons e es ih =>
    simp only [lookupCF] at h
    by_cases he : e.1 = k
    · simp [he] at h
    · rw [if_neg he] at h
      intro hm
      rcases List.mem_cons.mp hm with hm | hm
      · exact he hm.symm
      · exact ih h hm

theorem keysCF_setCF (c : Cache) (k : OFunPair) (v : Kind) :
    keysCF (setCF c k v) = keysCF c := by
  unfold keysCF setCF
  rw [List.map_map]
  apply List.map_congr_left
  intro e _
  by_cases he : e.1 = k <;> simp [he, Function.comp]

theorem mem_keys_emplaceCF (c : Cache) (k p : OFunPair) (v : Kind)
    (h : p ∈ keysCF c) : p ∈ keysCF (emplaceCF c k v) := by
  unfold emplaceCF
  split
  · exact h
  · unfold keysCF
    rw [List.map_append]
    exact List.mem_append_left _ h

theorem mem_keys_eraseCF_of_ne (c : Cache) (k p : OFunPair) (hne : p ≠ k)
    (h : p ∈ keysCF c) : p ∈ keysCF (eraseCF c k) := by
  rcases List.mem_map.mp h with ⟨e, he, rfl⟩
  apply List.mem_map_of_mem
  apply List.mem_filter.mpr
  exact ⟨he, by simp [hne]⟩

theorem nodup_keys_emplaceCF (c : Cache) (k : OFunPair) (v : Kind)
    (h : (keysCF c).Nodup) : (keysCF (emplaceCF c k v)).Nodup := by
  unfold emplaceCF
  split
  · exact h
  · rename_i hns
    have hn : lookupCF c k = none := by
      cases hl : lookupCF c k with
      | none => rfl
      | some w => rw [hl] at hns; simp at hns
    unfold keysCF
    rw [List.map_append]
    apply List.Nodup.append h (by simp)
    intro a ha hb
    rcases List.mem_singleton.mp (by simpa using hb) with rfl
    exact not_mem_keys_of_lookup_none c a hn ha

theorem nodup_keys_eraseCF (c : Cache) (k : OFunPair)
    (h : (keysCF c).Nodup) : (keysCF (eraseCF c k)).Nodup :=
  List.Nodup.sublist (List.Sublist.map _ (List.filter_sublist c)) h

/-! ## Invariant preservation through the comparator's state operations -/

theorem pairTracked_set_state (st : CompState) (k : OFunPair) (v : Kind)
    (p : OFunPair) (h : pairTracked p st) :
    pairTracked p { st with comparedFuns := setCF st.comparedFuns k v } := by
  rcases h with h | h
  · left
    show p ∈ keysCF (setCF st.comparedFuns k v)
    rw [keysCF_setCF]
    exact h
  · right
    exact h

theorem pairTracked_empl_state (st : CompState) (k : OFunPair) (v : Kind)
    (p : OFunPair) (h : pairTracked p st) :
    pairTracked p { st with comparedFuns := emplaceCF st.comparedFuns k v } := by
  rcases h with h | h
  · exact Or.inl (mem_keys_emplaceCF _ _ _ _ h)
  · exact Or.inr h

theorem pairTracked_eraseK (st : CompState) (k : OFunPair) (p : OFunPair)
    (h : pairTracked p st) : pairTracked p (eraseK st k) := by
  rcases h with h | h
  · by_cases hpk : p = k
    · right
      subst hpk
      exact List.mem_append_right _ (by simp)
    · left
      exact mem_keys_eraseCF_of_ne _ _ _ hpk h
  · right
    exact List.mem_append_left _ h

theorem pairTracked_applyOp (st : CompState) (op : CacheOp) (p : OFunPair)
    (h : pairTracked p st) : pairTracked p (applyOp st op) := by
  cases op with
  | empl k => exact pairTracked_empl_state st k Kind.UNKNOWN p h
  | setk k v => exact pairTracked_set_state st k v p h
  | ers k => exact pairTracked_eraseK st k p h

theorem pairTracked_applyOps (st : CompState) (ops : List CacheOp)
    (p : OFunPair) (h : pairTracked p st) : pairTracked p (applyOps st ops) := by
  induction ops generalizing st with
  | nil => exact h
  | cons op rest ih => exact ih (applyOp st op) (pairTracked_applyOp st op p h)

theorem pairTracked_iterStepCore (F1 F2 : Func) (st1 : CompState)
    (ip : OFunPair) (o : LoopIter) (p : OFunPair) (h : pairTracked p st1) :
    pairTracked p (iterStepCore F1 F2 st1 ip o) := by
  unfold iterStepCore
  apply pairTracked_set_state
  split
  · apply pairTracked_eraseK
    exact pairTracked_applyOps _ _ _ (pairTracked_set_state _ _ _ _ h)
  · exact pairTracked_applyOps _ _ _ (pairTracked_set_state _ _ _ _ h)

theorem pairTracked_iterStep (F1 F2 : Func) (st : CompState) (tf : Bool × Bool)
    (o : LoopIter) (p : OFunPair) (h : pairTracked p st) :
    pairTracked p ((iterStep F1 F2 st tf o).1) := by
  simp only [iterStep]
  split
  · show pairTracked p (if _ then _ else _)
    split
    · exact h
    · exact h
  · show pairTracked p (iterStepCore F1 F2 _ _ o)
    apply pairTracked_iterStepCore
    split
    · exact h
    · exact h

theorem pairTracked_inliningLoop (F1 F2 : Func) (iters : List LoopIter) :
    ∀ (st : CompState) (tf : Bool × Bool) (p : OFunPair), pairTracked p st →
      pairTracked p (inliningLoop F1 F2 st tf iters) := by
  induction iters with
  | nil => intro st tf p h; exact h
  | cons o rest ih =>
    intro st tf p h
    simp only [inliningLoop]
    split
    · split
      · exact ih _ _ _ (pairTracked_iterStep F1 F2 st tf o p h)
      · exact pairTracked_iterStep F1 F2 st tf o p h
    · exact h

theorem nodup_keys_eraseK (st : CompState) (k : OFunPair)
    (h : (keysCF st.comparedFuns).Nodup) :
    (keysCF (eraseK st k).comparedFuns).Nodup :=
  nodup_keys_eraseCF _ _ h

theorem nodup_keys_applyOp (st : CompState) (op : CacheOp)
    (h : (keysCF st.comparedFuns).Nodup) :
    (keysCF (applyOp st op).comparedFuns).Nodup := by
  cases op with
  | empl k => exact nodup_keys_emplaceCF _ _ _ h
  | setk k v =>
    show (keysCF (setCF st.comparedFuns k v)).Nodup
    rw [keysCF_setCF]
    exact h
  | ers k => exact nodup_keys_eraseK st k h

theorem nodup_keys_applyOps (st : CompState) (ops : List CacheOp)
    (h : (keysCF st.comparedFuns).Nodup) :
    (keysCF (applyOps st ops).comparedFuns).Nodup := by
  induction ops generalizing st with
  | nil => exact h
  | cons op rest ih => exact ih (applyOp st op) (nodup_keys_applyOp st op h)

theorem nodup_keys_iterStepCore (F1 F2 : Func) (st1 : CompState)
    (ip : OFunPair) (o : LoopIter) (h : (keysCF st1.comparedFuns).Nodup) :
    (keysCF (iterStepCore F1 F2 st1 ip o).comparedFuns).Nodup := by
  unfold iterStepCore
  show (keysCF (setCF _ _ _)).Nodup
  rw [keysCF_setCF]
  split
  · apply nodup_keys_eraseK
    apply nodup_keys_applyOps
    show (keysCF (setCF _ _ _)).Nodup
    rw [keysCF_setCF]
    exact h
  · apply nodup_keys_applyOps
    show (keysCF (setCF _ _ _)).Nodup
    rw [keysCF_setCF]
    exact h

theorem nodup_keys_iterStep (F1 F2 : Func) (st : CompState) (tf : Bool × Bool)
    (o : LoopIter) (h : (keysCF st.comparedFuns).Nodup) :
    (keysCF ((iterStep F1 F2 st tf o).1).comparedFuns).Nodup := by
  simp only [iterStep]
  split
  · show (keysCF (if _ then _ else _ : CompState).comparedFuns).Nodup
    split
    · exact h
    · exact h
  · show (keysCF (iterStepCore F1 F2 _ _ o).comparedFuns).Nodup
    apply nodup_keys_iterStepCore
    split
    · exact h
    · exact h

theorem nodup_keys_inliningLoop (F1 F2 : Func) (iters : List LoopIter) :
    ∀ (st : CompState) (tf : Bool × Bool),
      (keysCF st.comparedFuns).Nodup →
      (keysCF (inliningLoop F1 F2 st tf iters).comparedFuns).Nodup := by
  induction iters with
  | nil => intro st tf h; exact h
  | cons o rest ih =>
    intro st tf h
    simp only [inliningLoop]
    split
    · split
      · exact ih _ _ (nodup_keys_iterStep F1 F2 st tf o h)
      · exact nodup_keys_iterStep F1 F2 st tf o h
    · exact h

theorem runCalls_cons (cf : Bool) (cal : (Func × Func) × CmpOracle)
    (rest : List ((Func × Func) × CmpOracle)) (st : CompState) :
    runCalls cf (cal :: rest) st
      = runCalls cf rest (compareFunctions cf cal.1.1 cal.1.2 cal.2 st) := rfl

theorem pairTracked_compareFunctions_aux (cf : Bool) (F1 F2 : Func)
    (o : CmpOracle) (st : CompState) (p : OFunPair)
    (h : pairTracked p
      { st with comparedFuns := emplaceCF st.comparedFuns (some F1, some F2) Kind.UNKNOWN }) :
    pairTracked p (compareFunctions cf F1 F2 o st) := by
  simp only [compareFunctions]
  split
  · split
    · split
      · exact pairTracked_set_state _ _ _ _ h
      · exact pairTracked_set_state _ _ _ _ h
    · split
      · exact pairTracked_set_state _ _ _ _ h
      · split
        · exact pairTracked_set_state _ _ _ _ h
        · split
          · exact h
          · split
            · exact h
            · exact h
  · split
    · exact pairTracked_set_state _ _ _ _ (pairTracked_applyOps _ _ _ h)
    · exact pairTracked_inliningLoop _ _ _ _ _ _
        (pairTracked_set_state _ _ _ _ (pairTracked_applyOps _ _ _ h))

theorem pairTracked_compareFunctions (cf : Bool) (F1 F2 : Func)
    (o : CmpOracle) (st : CompState) (p : OFunPair) (h : pairTracked p st) :
    pairTracked p (compareFunctions cf F1 F2 o st) :=
  pairTracked_compareFunctions_aux cf F1 F2 o st p
    (pairTracked_empl_state st _ _ p h)

theorem compareFunctions_tracks_self (cf : Bool) (F1 F2 : Func)
    (o : CmpOracle) (st : CompState) :
    pairTracked (some F1, some F2) (compareFunctions cf F1 F2 o st) :=
  pairTracked_compareFunctions_aux cf F1 F2 o st _
    (Or.inl (mem_keys_of_lookup_isSome _ _ (isSome_lookupCF_emplaceCF _ _ _)))

theorem nodup_keys_compareFunctions (cf : Bool) (F1 F2 : Func)
    (o : CmpOracle) (st : CompState)
    (h : (keysCF st.comparedFuns).Nodup) :
    (keysCF (compareFunctions cf F1 F2 o st).comparedFuns).Nodup := by
  have h2 : (keysCF (emplaceCF st.comparedFuns (some F1, some F2)
      Kind.UNKNOWN)).Nodup := nodup_keys_emplaceCF _ _ _ h
  simp only [compareFunctions]
  split
  · split
    · split
      · show (keysCF (setCF _ _ _)).Nodup
        rw [keysCF_setCF]
        exact h2
      · show (keysCF (setCF _ _ _)).Nodup
        rw [keysCF_setCF]
        exact h2
    · split
      · show (keysCF (setCF _ _ _)).Nodup
        rw [keysCF_setCF]
        exact h2
      · split
        · show (keysCF (setCF _ _ _)).Nodup
          rw [keysCF_setCF]
          exact h2
        · split
          · exact h2
          · split
            · exact h2
            · exact h2
  · split
    · show (keysCF (setCF _ _ _)).Nodup
      rw [keysCF_setCF]
      exact nodup_keys_applyOps _ _ h2
    · apply nodup_keys_inliningLoop
      show (keysCF (setCF _ _ _)).Nodup
      rw [keysCF_setCF]
      exact nodup_keys_applyOps _ _ h2

theorem pairTracked_runCalls (cf : Bool)
    (calls : List ((Func × Func) × CmpOracle)) :
    ∀ (st : CompState) (p : OFunPair), pairTracked p st →
      pairTracked p (runCalls cf calls st) := by
  induction calls with
  | nil => intro st p h; exact h
  | cons cal rest ih =>
    intro st p h
    rw [runCalls_cons]
    exact ih _ _ (pairTracked_compareFunctions _ _ _ _ _ _ h)

theorem nodup_keys_runCalls (cf : Bool)
    (calls : List ((Func × Func) × CmpOracle)) :
    ∀ st : CompState, (keysCF st.comparedFuns).Nodup →
      (keysCF (runCalls cf calls st).comparedFuns).Nodup := by
  induction calls with
  | nil => intro st h; exact h
  | cons cal rest ih =>
    intro st h
    rw [runCalls_cons]
    exact ih _ (nodup_keys_compareFunctions _ _ _ _ _ h)

theorem comparedPairs_tracked (cf : Bool)
    (calls : List ((Func × Func) × CmpOracle)) :
    ∀ (st : CompState), ∀ p ∈ comparedPairs calls,
      pairTracked p (runCalls cf calls st) := by
  induction calls with
  | nil => intro st p hp; simp [comparedPairs] at hp
  | cons cal rest ih =>
    intro st p hp
    rw [runCalls_cons]
    rcases List.mem_cons.mp hp with rfl | hp'
    · exact pairTracked_runCalls cf rest _ _
        (compareFunctions_tracks_self cf cal.1.1 cal.1.2 cal.2 st)
    · exact ih _ p hp'

/-- C7 corrected.  Across any sequence of `compareFunctions` calls:
(a) the result cache never holds two entries with the same key, so every
pair appears *at most* once;
(b) every pair ever compared is a key of the final cache *unless* its entry
was erased by the post-inlining invalidation (ghost log `erasedLog`) — the
claim's "exactly once" fails precisely in that case;
(c) an entry is created at the start of a pair's comparison with kind
`UNKNOWN` (the `emplace` of lines 35-36 with the `Result` default). -/
theorem runCalls_cache_invariants (cf : Bool)
    (calls : List ((Func × Func) × CmpOracle)) (st : CompState)
    (hnd : (keysCF st.comparedFuns).Nodup) :
    (keysCF (runCalls cf calls st).comparedFuns).Nodup
    ∧ (∀ p ∈ comparedPairs calls,
        p ∈ keysCF (runCalls cf calls st).comparedFuns
        ∨ p ∈ (runCalls cf calls st).erasedLog)
    ∧ (∀ (c : Cache) (q : OFunPair), lookupCF c q = none →
        lookupCF (emplaceCF c q Kind.UNKNOWN) q = some Kind.UNKNOWN) :=
  ⟨nodup_keys_runCalls cf calls st hnd,
   fun p hp => comparedPairs_tracked cf calls st p hp,
   fun c q hq => lookupCF_emplaceCF_self c q _ hq⟩

/-- C7 corrected witness: the concrete two-call run; the erased pair
`(defnB1, defnB2)` is still accounted for by the ghost log. -/
theorem runCalls_cache_invariants_witness :
    (keysCF (runCalls false demoCalls initState).comparedFuns).Nodup
    ∧ ((some defnB1, some defnB2)
          ∈ keysCF (runCalls false demoCalls initState).comparedFuns
        ∨ (some defnB1, some defnB2)
          ∈ (runCalls false demoCalls initState).erasedLog) :=
  ⟨(runCalls_cache_invariants false demoCalls initState (by decide)).1,
   (runCalls_cache_invariants false demoCalls initState (by decide)).2.1
     (some defnB1, some defnB2) (by decide)⟩

/-- C7 counterexample.  In the concrete run `demoCalls` the pair
`(defnB1, defnB2)` is compared (first call) and later erased by the
post-inlining invalidation of the second call's loop, so the final cache
has *no* entry for it — refuting "the result cache contains exactly one
entry per distinct function pair ever compared". -/
theorem runCalls_cache_missing_compared_pair :
    (some defnB1, some defnB2) ∈ comparedPairs demoCalls
    ∧ lookupCF (runCalls false demoCalls initState).comparedFuns
        (some defnB1, some defnB2) = none := by decide

end Diffkemp
